import Mathlib

/-!
Verification of the core pipeline of `filelist.py` (QOLUtils): directory
scanning, manifest persistence (JSON), manifest comparison, and the
generated archive-script payload.  Every definition is a shallow embedding
of the corresponding Python function; JSON values are modelled by an
inductive type, Python `dict`s by association lists, and byte strings by
`List Nat` with values below 256.
-/

/-- JSON values as produced by Python's `json` module: null, booleans,
integers (all sizes in this program are integers), strings, arrays and
objects (insertion-ordered key/value lists, unique keys as in a `dict`). -/
inductive Json where
  | null : Json
  | bool (b : Bool) : Json
  | num (n : Int) : Json
  | str (s : String) : Json
  | arr (xs : List Json) : Json
  | obj (fields : List (String × Json)) : Json

/-- Membership test `'files' in data` on a decoded JSON object. -/
def hasKey (fields : List (String × Json)) (k : String) : Bool :=
  fields.any (fun kv => kv.1 = k)

/-- Python dict lookup `data[k]` on a decoded JSON object (keys are unique,
so the first hit is the value; `.null` stands for the unreachable miss). -/
def dictGet (fields : List (String × Json)) (k : String) : Json :=
  match fields.find? (fun kv => kv.1 = k) with
  | some kv => kv.2
  | none => Json.null

/-- Embedding of `filelist.py` lines 133-142: given the value parsed by
`json.load`, return the `(files, metadata)` pair.  If the value is a dict
containing the key `"files"`, that entry is the files value and every
other entry is metadata; otherwise the whole value is the files value and
the metadata is empty. -/
def load_json_filelist : Json → Json × List (String × Json)
  | Json.obj fields =>
      if hasKey fields "files" then
        (dictGet fields "files", fields.filter (fun kv => kv.1 ≠ "files"))
      else
        (Json.obj fields, [])
  | data => (data, [])

/-- A manifest (Python `Dict[str, int]` of relative path to size) encoded
as the JSON object stored under the `"files"` key. -/
def manifestToJson (m : List (String × Nat)) : Json :=
  Json.obj (m.map (fun kv => (kv.1, Json.num (kv.2 : Int))))

/-- The meaning function reading a decoded JSON value back as a
path-to-size mapping: an object whose values are all non-negative
integers, and nothing else. -/
def jsonFilesToManifest : Json → Option (List (String × Nat))
  | Json.obj fields =>
      fields.foldr
        (fun kv acc =>
          match acc, kv.2 with
          | some rest, Json.num i => if 0 ≤ i then some ((kv.1, i.toNat) :: rest) else none
          | _, _ => none)
        (some [])
  | _ => none

/-- A persisted manifest document with arbitrary (possibly wrong)
`total_files` and `total_size` fields, in the shape written by
`dump_directory_to_json` (lines 102-107). -/
def persisted_doc (src : String) (totalFiles totalSize : Int) (m : List (String × Nat)) : Json :=
  Json.obj
    [("source_directory", Json.str src),
     ("total_files", Json.num totalFiles),
     ("total_size", Json.num totalSize),
     ("files", manifestToJson m)]

/-- Embedding of `filelist.py` lines 102-107: the `output_data` document
built by `dump_directory_to_json`, with `total_files` the length of the
file list and `total_size` the sum of its sizes. -/
def output_data (src : String) (m : List (String × Nat)) : Json :=
  persisted_doc src (m.length : Int) (((m.map Prod.snd).sum : Nat) : Int) m

/-- Key set of a manifest, Python `set(files.keys())` (lines 167-168). -/
def keySet (m : List (String × Nat)) : Finset String :=
  (m.map Prod.fst).toFinset

/-- Embedding of line 171, `only_in_a = set_a - set_b`. -/
def only_in_a (a b : List (String × Nat)) : Finset String :=
  keySet a \ keySet b

/-- Embedding of line 172, `only_in_b = set_b - set_a`. -/
def only_in_b (a b : List (String × Nat)) : Finset String :=
  keySet b \ keySet a

/-- Embedding of line 173, `in_both = set_a & set_b`. -/
def in_both (a b : List (String × Nat)) : Finset String :=
  keySet a ∩ keySet b

/-- Python dict lookup `files[f]` on a manifest; keys are unique so the
first hit is the value, and 0 stands for the unreachable miss. -/
def lookupSize (m : List (String × Nat)) (f : String) : Nat :=
  match m.find? (fun kv => kv.1 = f) with
  | some kv => kv.2
  | none => 0

/-- Embedding of line 176, `size_only_a = sum(files_a[f] for f in only_in_a)`. -/
def size_only_a (a b : List (String × Nat)) : Nat :=
  (only_in_a a b).sum (lookupSize a)

/-- Embedding of line 177, `size_only_b = sum(files_b[f] for f in only_in_b)`. -/
def size_only_b (a b : List (String × Nat)) : Nat :=
  (only_in_b a b).sum (lookupSize b)

/-- Embedding of line 219, `files_in_both`: each shared path sorted
lexicographically, mapped to the pair of A's size and B's size. -/
def files_in_both (a b : List (String × Nat)) : List (String × Nat × Nat) :=
  ((in_both a b).sort (· ≤ ·)).map (fun f => (f, lookupSize a f, lookupSize b f))

/-- Reported statistics for one loaded list, `filelist.py` lines 189-190:
`len(files_a)` and `sum(files_a.values())`, recomputed from the decoded
files object (read back as a path-to-size mapping), never read from the
metadata fields. -/
def reported_stats (doc : Json) : Option (Nat × Nat) :=
  match jsonFilesToManifest (load_json_filelist doc).1 with
  | some files => some (files.length, (files.map Prod.snd).sum)
  | none => none

/-- Normalization of line 64, `str(rel_path).replace('\\', '/')`: every
backslash character becomes a forward slash. -/
def normalize_rel_path (p : String) : String :=
  String.mk (p.data.map (fun c => if c = '\\' then '/' else c))

/-- Python dict assignment `file_list[k] = v` on an association list:
overwrite in place when the key exists, append otherwise. -/
def dict_insert (m : List (String × Nat)) (k : String) (v : Nat) : List (String × Nat) :=
  if m.any (fun kv => kv.1 = k) then
    m.map (fun kv => if kv.1 = k then (kv.1, v) else kv)
  else
    m ++ [(k, v)]

/-- One walked file: its relative path as reported by `os.walk` /
`Path.relative_to`, and the outcome of the `stat` call — either the size
or the message of the raised `OSError` or `PermissionError`. -/
def statOk (e : Except String Nat) : Bool :=
  match e with
  | Except.ok _ => true
  | Except.error _ => false

/-- One iteration of the scan loop, lines 58-68: an accessible file is
recorded under its normalized path, a failing file leaves the dictionary
unchanged. -/
def scan_step (acc : List (String × Nat)) (e : String × Except String Nat) :
    List (String × Nat) :=
  match e.2 with
  | Except.ok size => dict_insert acc (normalize_rel_path e.1) size
  | Except.error _ => acc

/-- Embedding of `scan_directory` lines 55-70, its return value: the walk
is abstracted as a list of (relative path, stat outcome) entries; each
accessible file is recorded under its normalized path, each failing file
is skipped.  The function returns only the file dictionary. -/
def scan_directory (entries : List (String × Except String Nat)) : List (String × Nat) :=
  entries.foldl scan_step []

/-- The warning lines printed (line 68) during a scan, one per failing
file; they go to the terminal and are not part of the return value. -/
def scan_warnings (entries : List (String × Except String Nat)) : List String :=
  entries.filterMap
    (fun e =>
      match e.2 with
      | Except.ok _ => none
      | Except.error msg => some ("Warning: Could not access " ++ e.1 ++ ": " ++ msg))

/-- The decode failure raised out of `load_json_filelist` when `json.load`
fails (line 131), carrying the parse error's message. -/
inductive DecodeError where
  | parseFailure (msg : String) : DecodeError

/-- Embedding of `load_json_filelist` including its `json.load` boundary
(lines 130-142): the parse outcome is the input; a parse error propagates
as a `DecodeError` and no files value is produced, a parsed document is
split by `load_json_filelist`. -/
def load_json_filelist_checked (parsed : Except String Json) :
    Except DecodeError (Json × List (String × Json)) :=
  match parsed with
  | Except.error e => Except.error (DecodeError.parseFailure e)
  | Except.ok data => Except.ok (load_json_filelist data)

/-- Lowercase hex digit, as produced by Python's format `'\\u%04x'`. -/
def hexDigitChar (n : Nat) : Char :=
  if n < 10 then Char.ofNat (48 + n) else Char.ofNat (87 + n)

/-- The four hex digits of a code unit below 0x10000, most significant
first. -/
def hexDigits4 (n : Nat) : List Char :=
  [hexDigitChar (n / 4096 % 16), hexDigitChar (n / 256 % 16),
   hexDigitChar (n / 16 % 16), hexDigitChar (n % 16)]

/-- Value of one hex digit as accepted by `int(s, 16)` in the JSON
scanner (either case). -/
def hexVal (c : Char) : Option Nat :=
  if '0' ≤ c ∧ c ≤ '9' then some (c.toNat - 48)
  else if 'a' ≤ c ∧ c ≤ 'f' then some (c.toNat - 87)
  else if 'A' ≤ c ∧ c ≤ 'F' then some (c.toNat - 55)
  else none

/-- Value of a four-hex-digit escape body. -/
def hexVal4 (h1 h2 h3 h4 : Char) : Option Nat :=
  match hexVal h1, hexVal h2, hexVal h3, hexVal h4 with
  | some v1, some v2, some v3, some v4 => some (v1 * 4096 + v2 * 256 + v3 * 16 + v4)
  | _, _, _, _ => none

/-- Escape of one character by `json.dumps` with its default
`ensure_ascii=True`: the short escapes for backslash, quote and the five
named controls; printable ASCII passed through; every other scalar below
0x10000 as `\\uXXXX`; astral scalars as a UTF-16 surrogate pair (the
encoder's `>> 10` and `& 0x3FF` written as division and remainder). -/
def escapeChar (c : Char) : List Char :=
  if c = '\\' then ['\\', '\\']
  else if c = '"' then ['\\', '"']
  else if c.toNat = 8 then ['\\', 'b']
  else if c.toNat = 12 then ['\\', 'f']
  else if c.toNat = 10 then ['\\', 'n']
  else if c.toNat = 13 then ['\\', 'r']
  else if c.toNat = 9 then ['\\', 't']
  else if 0x20 ≤ c.toNat ∧ c.toNat ≤ 0x7E then [c]
  else if c.toNat < 0x10000 then '\\' :: 'u' :: hexDigits4 c.toNat
  else
    '\\' :: 'u' :: hexDigits4 (0xD800 + (c.toNat - 0x10000) / 0x400 % 0x400) ++
      ('\\' :: 'u' :: hexDigits4 (0xDC00 + (c.toNat - 0x10000) % 0x400))

/-- Escape of a whole string body, character by character. -/
def escapeList : List Char → List Char
  | [] => []
  | c :: cs => escapeChar c ++ escapeList cs

/-- Serialization of one string: a quoted escaped body. -/
def dumpString (s : List Char) : List Char :=
  '"' :: escapeList s ++ ['"']

/-- Bodies of a serialized list, joined by the default separator. -/
def dumpItems : List (List Char) → List Char
  | [] => []
  | [s] => dumpString s
  | s :: rest => dumpString s ++ ',' :: ' ' :: dumpItems rest

/-- Serialization of a list of strings, `json.dumps(files)` on line 236. -/
def jsonDumpList (l : List (List Char)) : List Char :=
  '[' :: dumpItems l ++ [']']

/-- The tail of a serialized list after its first element: separator and
body of each later element, used to describe `dumpItems` one element at a
time. -/
def sepItems : List (List Char) → List Char
  | [] => []
  | s :: rest => ',' :: ' ' :: (dumpString s ++ sepItems rest)

/-- Prepend a decoded character onto a scanner result. -/
def consMap (c : Char) (o : Option (List Char × List Char)) : Option (List Char × List Char) :=
  o.map (fun p => (c :: p.1, p.2))

/-- The `\\uXXXX` handling of the JSON string scanner (`py_scanstring`),
positioned just after `\\u`: reads four hex digits, and when they form a
high surrogate followed by a second `\\uXXXX` low surrogate, joins the
pair into one scalar.  A lone surrogate is not representable as a scalar
value, so this model rejects it; the serializer above never emits one. -/
def scanU (r : List Char) : Option (Nat × List Char) :=
  match r with
  | h1 :: h2 :: h3 :: h4 :: r2 =>
    match hexVal4 h1 h2 h3 h4 with
    | none => none
    | some n =>
      if 0xD800 ≤ n ∧ n ≤ 0xDBFF then
        match r2 with
        | u1 :: u2 :: k1 :: k2 :: k3 :: k4 :: r3 =>
          if u1 = '\\' ∧ u2 = 'u' then
            match hexVal4 k1 k2 k3 k4 with
            | none => none
            | some m =>
              if 0xDC00 ≤ m ∧ m ≤ 0xDFFF then
                some (0x10000 + (n - 0xD800) * 0x400 + (m - 0xDC00), r3)
              else none
          else none
        | _ => none
      else if 0xDC00 ≤ n ∧ n ≤ 0xDFFF then none
      else some (n, r2)
  | _ => none

/-- The JSON string scanner (`py_scanstring`, strict mode), positioned
just after the opening quote: reads characters up to the closing quote,
rejecting raw controls below 0x20 and decoding backslash escapes.  The
fuel argument only bounds the recursion — one unit per decoded
character — and callers supply more fuel than the input has characters. -/
def scanStringF : Nat → List Char → Option (List Char × List Char)
  | 0, _ => none
  | fuel + 1, cs =>
    match cs with
    | [] => none
    | c :: rest =>
      if c = '"' then some ([], rest)
      else if c = '\\' then
        match rest with
        | [] => none
        | e :: r =>
          if e = '"' then consMap '"' (scanStringF fuel r)
          else if e = '\\' then consMap '\\' (scanStringF fuel r)
          else if e = '/' then consMap '/' (scanStringF fuel r)
          else if e = 'b' then consMap (Char.ofNat 8) (scanStringF fuel r)
          else if e = 'f' then consMap (Char.ofNat 12) (scanStringF fuel r)
          else if e = 'n' then consMap (Char.ofNat 10) (scanStringF fuel r)
          else if e = 'r' then consMap (Char.ofNat 13) (scanStringF fuel r)
          else if e = 't' then consMap (Char.ofNat 9) (scanStringF fuel r)
          else if e = 'u' then
            match scanU r with
            | some (n, r2) => consMap (Char.ofNat n) (scanStringF fuel r2)
            | none => none
          else none
      else if c.toNat < 0x20 then none
      else consMap c (scanStringF fuel rest)

/-- The string scanner with its recursion budget instantiated: at most
one unit of fuel is spent per input character, so the input length plus
one always suffices. -/
def scanString (cs : List Char) : Option (List Char × List Char) :=
  scanStringF (cs.length + 1) cs

/-- JSON whitespace as skipped by the decoder: space, tab, newline,
carriage return. -/
def isJsonWs (c : Char) : Bool :=
  c = ' ' || c = Char.ofNat 9 || c = Char.ofNat 10 || c = Char.ofNat 13

/-- Skip leading JSON whitespace. -/
def skipWs : List Char → List Char
  | [] => []
  | c :: rest => if isJsonWs c then skipWs rest else c :: rest

/-- The array scanner's loop, positioned just after a parsed element:
expects `]` to finish or `,` followed by the next string element.  The
fuel argument only bounds the recursion; one unit is spent per element,
and callers supply more fuel than the input has characters. -/
def parseLoop : Nat → List (List Char) → List Char → Option (List (List Char) × List Char)
  | 0, _, _ => none
  | Nat.succ fuel, acc, cs =>
    match skipWs cs with
    | ']' :: rest => some (acc.reverse, rest)
    | ',' :: rest =>
      match skipWs rest with
      | '"' :: r2 =>
        match scanString r2 with
        | some (s, r3) => parseLoop fuel (s :: acc) r3
        | none => none
      | _ => none
    | _ => none

/-- Parse of a whole document that must be a JSON array of strings — the
shape `json.loads(files)` receives in the generated script (line 249):
optional whitespace, `[`, string elements separated by `,`, `]`, and
nothing but whitespace after. -/
def parseArray (cs : List Char) : Option (List (List Char)) :=
  match skipWs cs with
  | '[' :: r =>
    match skipWs r with
    | ']' :: rest => if (skipWs rest).isEmpty then some [] else none
    | '"' :: r2 =>
      match scanString r2 with
      | some (s, r3) =>
        match parseLoop (r3.length + 1) [s] r3 with
        | some (items, rest) => if (skipWs rest).isEmpty then some items else none
        | none => none
      | none => none
    | _ => none
  | _ => none

/-- UTF-8 encoding of one scalar value, `str.encode('utf-8')`. -/
def utf8EncodeChar (c : Char) : List Nat :=
  if c.toNat < 0x80 then [c.toNat]
  else if c.toNat < 0x800 then [0xC0 + c.toNat / 0x40, 0x80 + c.toNat % 0x40]
  else if c.toNat < 0x10000 then
    [0xE0 + c.toNat / 0x1000, 0x80 + c.toNat / 0x40 % 0x40, 0x80 + c.toNat % 0x40]
  else
    [0xF0 + c.toNat / 0x40000, 0x80 + c.toNat / 0x1000 % 0x40,
     0x80 + c.toNat / 0x40 % 0x40, 0x80 + c.toNat % 0x40]

/-- UTF-8 encoding of a string as a byte list. -/
def utf8Encode : List Char → List Nat
  | [] => []
  | c :: cs => utf8EncodeChar c ++ utf8Encode cs

/-- Decoding of one multi-byte UTF-8 sequence, given its lead byte and
the remaining bytes: returns the scalar value and the rest.  Rejects
stray continuations, overlong forms, surrogates and out-of-range leads,
as `bytes.decode('utf-8')` does. -/
def utf8DecodeMB (b : Nat) (bs : List Nat) : Option (Nat × List Nat) :=
  if b < 0xC2 then none
  else if b < 0xE0 then
    match bs with
    | b2 :: bs2 =>
      if 0x80 ≤ b2 ∧ b2 < 0xC0 then some ((b - 0xC0) * 0x40 + (b2 - 0x80), bs2) else none
    | _ => none
  else if b < 0xF0 then
    match bs with
    | b2 :: b3 :: bs3 =>
      if (0x80 ≤ b2 ∧ b2 < 0xC0) ∧ (0x80 ≤ b3 ∧ b3 < 0xC0) ∧
          (b = 0xE0 → 0xA0 ≤ b2) ∧ (b = 0xED → b2 < 0xA0) then
        some ((b - 0xE0) * 0x1000 + (b2 - 0x80) * 0x40 + (b3 - 0x80), bs3)
      else none
    | _ => none
  else if b < 0xF5 then
    match bs with
    | b2 :: b3 :: b4 :: bs4 =>
      if (0x80 ≤ b2 ∧ b2 < 0xC0) ∧ (0x80 ≤ b3 ∧ b3 < 0xC0) ∧ (0x80 ≤ b4 ∧ b4 < 0xC0) ∧
          (b = 0xF0 → 0x90 ≤ b2) ∧ (b = 0xF4 → b2 < 0x90) then
        some ((b - 0xF0) * 0x40000 + (b2 - 0x80) * 0x1000 + (b3 - 0x80) * 0x40 + (b4 - 0x80),
          bs4)
      else none
    | _ => none
  else none

/-- UTF-8 decoding of a byte list, `bytes.decode('utf-8')`: ASCII bytes
directly, everything else through `utf8DecodeMB`.  The fuel argument only
bounds the recursion — one unit per decoded scalar, so the input length
plus one always suffices. -/
def utf8DecodeF : Nat → List Nat → Option (List Char)
  | 0, _ => none
  | _ + 1, [] => some []
  | fuel + 1, b :: bs =>
    if b < 0x80 then (utf8DecodeF fuel bs).map (fun cs => Char.ofNat b :: cs)
    else
      match utf8DecodeMB b bs with
      | some (n, rest) => (utf8DecodeF fuel rest).map (fun cs => Char.ofNat n :: cs)
      | none => none

/-- UTF-8 decoding with its recursion budget instantiated. -/
def utf8Decode (bs : List Nat) : Option (List Char) :=
  utf8DecodeF (bs.length + 1) bs

/-- Character of one 6-bit group in the standard base64 alphabet. -/
def b64Char (n : Nat) : Char :=
  if n < 26 then Char.ofNat (65 + n)
  else if n < 52 then Char.ofNat (97 + (n - 26))
  else if n < 62 then Char.ofNat (48 + (n - 52))
  else if n = 62 then '+'
  else '/'

/-- Standard base64 encoding of a byte list, `base64.b64encode`, with
`=` padding. -/
def b64Encode : List Nat → List Char
  | [] => []
  | [b1] => [b64Char (b1 / 4), b64Char (b1 % 4 * 16), '=', '=']
  | [b1, b2] => [b64Char (b1 / 4), b64Char (b1 % 4 * 16 + b2 / 16), b64Char (b2 % 16 * 4), '=']
  | b1 :: b2 :: b3 :: bs =>
      b64Char (b1 / 4) :: b64Char (b1 % 4 * 16 + b2 / 16) ::
        b64Char (b2 % 16 * 4 + b3 / 64) :: b64Char (b3 % 64) :: b64Encode bs

/-- Value of one base64 alphabet character. -/
def b64CharVal (c : Char) : Option Nat :=
  if 'A' ≤ c ∧ c ≤ 'Z' then some (c.toNat - 65)
  else if 'a' ≤ c ∧ c ≤ 'z' then some (c.toNat - 97 + 26)
  else if '0' ≤ c ∧ c ≤ '9' then some (c.toNat - 48 + 52)
  else if c = '+' then some 62
  else if c = '/' then some 63
  else none

/-- Standard base64 decoding, `base64.b64decode`: groups of four
characters, with one or two `=` of padding in the final group only. -/
def b64Decode : List Char → Option (List Nat)
  | [] => some []
  | c1 :: c2 :: c3 :: c4 :: rest =>
    if rest = [] ∧ c3 = '=' ∧ c4 = '=' then
      match b64CharVal c1, b64CharVal c2 with
      | some v1, some v2 => some [v1 * 4 + v2 / 16]
      | _, _ => none
    else if rest = [] ∧ c4 = '=' then
      match b64CharVal c1, b64CharVal c2, b64CharVal c3 with
      | some v1, some v2, some v3 => some [v1 * 4 + v2 / 16, v2 % 16 * 16 + v3 / 4]
      | _, _, _ => none
    else
      match b64CharVal c1, b64CharVal c2, b64CharVal c3, b64CharVal c4, b64Decode rest with
      | some v1, some v2, some v3, some v4, some tail =>
          some ((v1 * 4 + v2 / 16) :: (v2 % 16 * 16 + v3 / 4) :: (v3 % 4 * 64 + v4) :: tail)
      | _, _, _, _, _ => none
  | _ => none

/-- Serialization step of `generate_zip_script` line 236,
`json.dumps(files)`, as a character list. -/
def json_dumps_paths (files : List String) : List Char :=
  jsonDumpList (files.map String.data)

/-- Deserialization step of the generated script's line
`files = json.loads(files)`. -/
def json_loads_paths (cs : List Char) : Option (List String) :=
  (parseArray cs).map (fun items => items.map String.mk)

/-- Embedding of `generate_zip_script` lines 236-238: the `zip_b64`
payload text written into the generated script.  The zlib compressor
(`zlib.compress`, an external library) is a parameter; the JSON, UTF-8
and base64 steps are the concrete functions above. -/
def generate_zip_payload (compress : List Nat → List Nat) (files : List String) : List Char :=
  b64Encode (compress (utf8Encode (json_dumps_paths files)))

/-- Embedding of the generated script's boilerplate, lines 247-249:
base64-decode the payload, decompress, decode UTF-8, JSON-parse.  The
zlib decompressor (`zlib.decompress`) is a parameter matching the
compressor. -/
def decode_embedded_payload (decompress : List Nat → List Nat) (payload : List Char) :
    Option (List String) :=
  match b64Decode payload with
  | none => none
  | some zipData =>
    match utf8Decode (decompress zipData) with
    | none => none
    | some cs => json_loads_paths cs

theorem hexVal_hexDigitChar (n : Nat) (h : n < 16) : hexVal (hexDigitChar n) = some n := by
  interval_cases n <;> rfl

theorem hexVal4_hexDigits4 (n : Nat) (h : n < 65536) :
    hexVal4 (hexDigitChar (n / 4096 % 16)) (hexDigitChar (n / 256 % 16))
      (hexDigitChar (n / 16 % 16)) (hexDigitChar (n % 16)) = some n := by
  rw [hexVal4, hexVal_hexDigitChar _ (Nat.mod_lt _ (by omega)),
      hexVal_hexDigitChar _ (Nat.mod_lt _ (by omega)),
      hexVal_hexDigitChar _ (Nat.mod_lt _ (by omega)),
      hexVal_hexDigitChar _ (Nat.mod_lt _ (by omega))]
  exact congrArg some (by omega)

theorem char_toNat_valid (c : Char) :
    c.toNat < 0xD800 ∨ (0xDFFF < c.toNat ∧ c.toNat < 0x110000) := c.valid

theorem scanU_plain (n : Nat) (hlo : ¬ (0xD800 ≤ n ∧ n ≤ 0xDBFF))
    (hhi : ¬ (0xDC00 ≤ n ∧ n ≤ 0xDFFF)) (hn : n < 0x10000) (rest : List Char) :
    scanU (hexDigits4 n ++ rest) = some (n, rest) := by
  rw [hexDigits4]
  simp only [List.cons_append, List.nil_append]
  rw [scanU]
  rw [hexVal4_hexDigits4 _ hn]
  simp [hlo, hhi]

theorem scanU_pair (hi lo : Nat) (hhi : 0xD800 ≤ hi ∧ hi ≤ 0xDBFF)
    (hlo : 0xDC00 ≤ lo ∧ lo ≤ 0xDFFF) (hihn : hi < 0x10000) (lohn : lo < 0x10000)
    (rest : List Char) :
    scanU (hexDigits4 hi ++ ('\\' :: 'u' :: (hexDigits4 lo ++ rest))) =
      some (0x10000 + (hi - 0xD800) * 0x400 + (lo - 0xDC00), rest) := by
  rw [hexDigits4, hexDigits4]
  simp only [List.cons_append, List.nil_append]
  rw [scanU]
  rw [hexVal4_hexDigits4 _ hihn]
  simp only [hhi.1, hhi.2, and_self, if_true]
  rw [hexVal4_hexDigits4 _ lohn]
  simp [hhi, hlo]

theorem scanStringF_escapeChar (fuel : Nat) (c : Char) (tail : List Char) :
    scanStringF (fuel + 1) (escapeChar c ++ tail) = consMap c (scanStringF fuel tail) := by
  have hval := char_toNat_valid c
  have hofn := Char.ofNat_toNat c
  rw [escapeChar]
  split_ifs with h1 h2 h3 h4 h5 h6 h7 h8 h9
  · subst h1; rw [scanStringF.eq_def]; simp
  · subst h2; rw [scanStringF.eq_def]; simp
  · rw [← hofn, h3]; rw [scanStringF.eq_def]; simp
  · rw [← hofn, h4]; rw [scanStringF.eq_def]; simp
  · rw [← hofn, h5]; rw [scanStringF.eq_def]; simp
  · rw [← hofn, h6]; rw [scanStringF.eq_def]; simp
  · rw [← hofn, h7]; rw [scanStringF.eq_def]; simp
  · have hc : ¬ (c.toNat < 0x20) := by omega
    rw [List.singleton_append, scanStringF.eq_def]
    simp [h1, h2, hc]
  · simp only [List.cons_append]
    rw [scanStringF.eq_def]
    simp
    rw [scanU_plain c.toNat (by omega) (by omega) (by omega)]
    simp [hofn]
  · simp only [List.cons_append, List.append_assoc]
    rw [scanStringF.eq_def]
    simp
    have hb : (c.toNat - 0x10000) / 0x400 % 0x400 ≤ 0x3FF := by omega
    rw [scanU_pair (0xD800 + (c.toNat - 0x10000) / 0x400 % 0x400)
        (0xDC00 + (c.toNat - 0x10000) % 0x400)
        (by omega) (by omega) (by omega) (by omega)]
    simp only []
    conv_rhs => rw [← hofn]
    exact congrArg (fun n => consMap (Char.ofNat n) (scanStringF fuel tail)) (by omega)


theorem load_persisted_doc (src : String) (tf ts : Int) (m : List (String × Nat)) :
    load_json_filelist (persisted_doc src tf ts m) =
      (manifestToJson m,
       [("source_directory", Json.str src),
        ("total_files", Json.num tf),
        ("total_size", Json.num ts)]) := by
  simp [persisted_doc, load_json_filelist, hasKey, dictGet]

theorem jsonFilesToManifest_manifestToJson (m : List (String × Nat)) :
    jsonFilesToManifest (manifestToJson m) = some m := by
  induction m with
  | nil => rfl
  | cons kv rest ih =>
      simp [manifestToJson] at ih
      simp [manifestToJson, jsonFilesToManifest] at ih ⊢
      rw [ih]
      simp [Int.toNat_ofNat]

theorem escapeChar_length_pos (c : Char) : 0 < (escapeChar c).length := by
  rw [escapeChar]
  split_ifs <;> simp [hexDigits4]

theorem escapeList_length_ge (s : List Char) : s.length ≤ (escapeList s).length := by
  induction s with
  | nil => simp [escapeList]
  | cons c cs ih =>
      rw [escapeList]
      simp only [List.length_append, List.length_cons]
      have hpos := escapeChar_length_pos c
      omega

theorem scanStringF_escapeList (s : List Char) : ∀ (fuel : Nat) (tail : List Char),
    s.length < fuel →
    scanStringF fuel (escapeList s ++ ('"' :: tail)) = some (s, tail) := by
  induction s with
  | nil =>
      intro fuel tail h
      cases fuel with
      | zero => omega
      | succ f =>
          rw [escapeList, List.nil_append, scanStringF.eq_def]
          simp
  | cons c cs ih =>
      intro fuel tail h
      cases fuel with
      | zero => omega
      | succ f =>
          rw [escapeList, List.append_assoc, scanStringF_escapeChar,
            ih f tail (by simp at h; omega)]
          rfl

theorem scanString_escapeList (s : List Char) (tail : List Char) :
    scanString (escapeList s ++ ('"' :: tail)) = some (s, tail) := by
  rw [scanString]
  apply scanStringF_escapeList
  have hge := escapeList_length_ge s
  simp only [List.length_append, List.length_cons]
  omega

theorem skipWs_cons_false (c : Char) (rest : List Char) (h : isJsonWs c = false) :
    skipWs (c :: rest) = c :: rest := by
  simp [skipWs, h]

theorem skipWs_space (rest : List Char) : skipWs (' ' :: rest) = skipWs rest := by
  simp [skipWs, isJsonWs]

theorem dumpItems_cons (s : List Char) (l : List (List Char)) :
    dumpItems (s :: l) = dumpString s ++ sepItems l := by
  induction l generalizing s with
  | nil => simp [dumpItems, sepItems]
  | cons t ts ih =>
      rw [dumpItems, sepItems, ih]
      simp

theorem sepItems_length_ge (l : List (List Char)) : l.length ≤ (sepItems l).length := by
  induction l with
  | nil => simp [sepItems]
  | cons s xs ih =>
      rw [sepItems]
      simp only [List.length_cons, List.length_append]
      omega

theorem parseLoop_spec (l : List (List Char)) : ∀ (fuel : Nat) (acc : List (List Char)),
    l.length < fuel →
    parseLoop fuel acc (sepItems l ++ [']']) = some (acc.reverse ++ l, []) := by
  induction l with
  | nil =>
      intro fuel acc h
      cases fuel with
      | zero => omega
      | succ f =>
          rw [sepItems, List.nil_append, parseLoop,
            skipWs_cons_false _ _ (by decide)]
          simp [skipWs]
  | cons s xs ih =>
      intro fuel acc h
      cases fuel with
      | zero => omega
      | succ f =>
          rw [sepItems, parseLoop]
          simp only [List.cons_append, List.append_assoc]
          rw [skipWs_cons_false _ _ (by decide)]
          simp only []
          rw [skipWs_space, dumpString]
          simp only [List.cons_append, List.append_assoc, List.singleton_append]
          rw [skipWs_cons_false _ _ (by decide)]
          simp only []
          rw [scanString_escapeList]
          simp only [List.nil_append]
          rw [ih f (s :: acc) (by simp at h; omega)]
          simp

theorem parseArray_jsonDumpList (l : List (List Char)) :
    parseArray (jsonDumpList l) = some l := by
  cases l with
  | nil => rfl
  | cons s xs =>
      rw [jsonDumpList, dumpItems_cons, parseArray]
      simp only [List.cons_append, List.append_assoc]
      rw [skipWs_cons_false _ _ (by decide)]
      simp only []
      rw [dumpString]
      simp only [List.cons_append, List.append_assoc, List.singleton_append]
      rw [skipWs_cons_false _ _ (by decide)]
      simp only []
      rw [scanString_escapeList]
      simp only [List.nil_append]
      have hlen : xs.length < (sepItems xs ++ [']']).length + 1 := by
        have hge := sepItems_length_ge xs
        simp only [List.length_append, List.length_cons]
        omega
      rw [parseLoop_spec xs _ [s] hlen]
      simp [skipWs]

theorem utf8EncodeChar_lt (c : Char) : ∀ b ∈ utf8EncodeChar c, b < 256 := by
  have hval := char_toNat_valid c
  intro b hb
  rw [utf8EncodeChar] at hb
  split_ifs at hb with h1 h2 h3
  · simp at hb; omega
  · simp at hb
    rcases hb with hb | hb <;> omega
  · simp at hb
    rcases hb with hb | hb | hb <;> omega
  · simp at hb
    rcases hb with hb | hb | hb | hb <;> omega

theorem utf8Encode_lt (s : List Char) : ∀ b ∈ utf8Encode s, b < 256 := by
  induction s with
  | nil => simp [utf8Encode]
  | cons c cs ih =>
      intro b hb
      rw [utf8Encode] at hb
      rcases List.mem_append.mp hb with hb | hb
      · exact utf8EncodeChar_lt c b hb
      · exact ih b hb

theorem utf8EncodeChar_length_pos (c : Char) : 0 < (utf8EncodeChar c).length := by
  rw [utf8EncodeChar]
  split_ifs <;> simp

theorem utf8Encode_length_ge (s : List Char) : s.length ≤ (utf8Encode s).length := by
  induction s with
  | nil => simp [utf8Encode]
  | cons c cs ih =>
      rw [utf8Encode]
      simp only [List.length_append, List.length_cons]
      have hpos := utf8EncodeChar_length_pos c
      omega

theorem utf8DecodeF_encode_ascii (s : List Char) : ∀ (fuel : Nat), s.length < fuel →
    (∀ c ∈ s, c.toNat < 0x80) →
    utf8DecodeF fuel (utf8Encode s) = some s := by
  induction s with
  | nil =>
      intro fuel hf _
      cases fuel with
      | zero => omega
      | succ f => rfl
  | cons c cs ih =>
      intro fuel hf h
      cases fuel with
      | zero => omega
      | succ f =>
          have hc : c.toNat < 0x80 := h c (List.mem_cons_self c cs)
          rw [utf8Encode, utf8EncodeChar, if_pos hc, List.singleton_append, utf8DecodeF,
            if_pos hc,
            ih f (by simp at hf; omega) (fun d hd => h d (List.mem_cons_of_mem c hd))]
          simp [Char.ofNat_toNat]

theorem utf8Decode_encode_ascii (s : List Char) (h : ∀ c ∈ s, c.toNat < 0x80) :
    utf8Decode (utf8Encode s) = some s := by
  rw [utf8Decode]
  apply utf8DecodeF_encode_ascii s _ _ h
  have hge := utf8Encode_length_ge s
  omega

theorem hexDigitChar_ascii (n : Nat) (h : n < 16) : (hexDigitChar n).toNat < 0x80 := by
  interval_cases n <;> decide

theorem hexDigits4_ascii (n : Nat) : ∀ b ∈ hexDigits4 n, b.toNat < 0x80 := by
  intro b hb
  rw [hexDigits4] at hb
  simp only [List.mem_cons, List.not_mem_nil, or_false] at hb
  rcases hb with hb | hb | hb | hb <;>
    (subst hb; exact hexDigitChar_ascii _ (Nat.mod_lt _ (by omega)))

theorem escapeChar_ascii (c : Char) : ∀ b ∈ escapeChar c, b.toNat < 0x80 := by
  intro b hb
  rw [escapeChar] at hb
  split_ifs at hb with h1 h2 h3 h4 h5 h6 h7 h8 h9
  · simp at hb; subst hb; decide
  · simp at hb; rcases hb with hb | hb <;> (subst hb; decide)
  · simp at hb; rcases hb with hb | hb <;> (subst hb; decide)
  · simp at hb; rcases hb with hb | hb <;> (subst hb; decide)
  · simp at hb; rcases hb with hb | hb <;> (subst hb; decide)
  · simp at hb; rcases hb with hb | hb <;> (subst hb; decide)
  · simp at hb; rcases hb with hb | hb <;> (subst hb; decide)
  · simp at hb; subst hb; omega
  · rcases List.mem_cons.mp hb with rfl | hb
    · decide
    rcases List.mem_cons.mp hb with rfl | hb
    · decide
    exact hexDigits4_ascii _ b hb
  · rw [List.cons_append, List.cons_append] at hb
    rcases List.mem_cons.mp hb with rfl | hb
    · decide
    rcases List.mem_cons.mp hb with rfl | hb
    · decide
    rcases List.mem_append.mp hb with hb | hb
    · exact hexDigits4_ascii _ b hb
    rcases List.mem_cons.mp hb with rfl | hb
    · decide
    rcases List.mem_cons.mp hb with rfl | hb
    · decide
    exact hexDigits4_ascii _ b hb

theorem escapeList_ascii (s : List Char) : ∀ b ∈ escapeList s, b.toNat < 0x80 := by
  induction s with
  | nil => simp [escapeList]
  | cons c cs ih =>
      intro b hb
      rw [escapeList] at hb
      rcases List.mem_append.mp hb with hb | hb
      · exact escapeChar_ascii c b hb
      · exact ih b hb

theorem dumpString_ascii (s : List Char) : ∀ b ∈ dumpString s, b.toNat < 0x80 := by
  intro b hb
  rw [dumpString] at hb
  rcases List.mem_cons.mp hb with rfl | hb
  · decide
  rcases List.mem_append.mp hb with hb | hb
  · exact escapeList_ascii s b hb
  rcases List.mem_singleton.mp hb with rfl
  decide

theorem sepItems_ascii (l : List (List Char)) : ∀ b ∈ sepItems l, b.toNat < 0x80 := by
  induction l with
  | nil => simp [sepItems]
  | cons s xs ih =>
      intro b hb
      rw [sepItems] at hb
      rcases List.mem_cons.mp hb with rfl | hb
      · decide
      rcases List.mem_cons.mp hb with rfl | hb
      · decide
      rcases List.mem_append.mp hb with hb | hb
      · exact dumpString_ascii s b hb
      · exact ih b hb

theorem jsonDumpList_ascii (l : List (List Char)) : ∀ b ∈ jsonDumpList l, b.toNat < 0x80 := by
  intro b hb
  rw [jsonDumpList] at hb
  rcases List.mem_cons.mp hb with rfl | hb
  · decide
  rcases List.mem_append.mp hb with hb | hb
  · cases l with
    | nil => rw [dumpItems] at hb; exact absurd hb (List.not_mem_nil b)
    | cons s xs =>
        rw [dumpItems_cons] at hb
        rcases List.mem_append.mp hb with hb | hb
        · exact dumpString_ascii s b hb
        · exact sepItems_ascii xs b hb
  · rcases List.mem_singleton.mp hb with rfl
    decide

theorem b64CharVal_b64Char : ∀ n < 64, b64CharVal (b64Char n) = some n := by
  decide

theorem b64Char_ne_pad : ∀ n < 64, b64Char n ≠ '=' := by
  decide

theorem b64Decode_b64Encode (bs : List Nat) (h : ∀ b ∈ bs, b < 256) :
    b64Decode (b64Encode bs) = some bs := by
  induction bs using b64Encode.induct with
  | case1 => rfl
  | case2 b1 =>
      have hb1 : b1 < 256 := h b1 (by simp)
      rw [b64Encode, b64Decode]
      rw [if_pos ⟨rfl, rfl, rfl⟩]
      rw [b64CharVal_b64Char _ (by omega), b64CharVal_b64Char _ (by omega)]
      simp only [Option.some.injEq]
      have : b1 / 4 * 4 + b1 % 4 * 16 / 16 = b1 := by omega
      rw [this]
  | case3 b1 b2 =>
      have hb1 : b1 < 256 := h b1 (by simp)
      have hb2 : b2 < 256 := h b2 (by simp)
      rw [b64Encode, b64Decode]
      rw [if_neg (by
        intro hcon
        exact b64Char_ne_pad _ (by omega) hcon.2.1)]
      rw [if_pos ⟨rfl, rfl⟩]
      rw [b64CharVal_b64Char _ (by omega), b64CharVal_b64Char _ (by omega),
        b64CharVal_b64Char _ (by omega)]
      simp only [Option.some.injEq]
      have e1 : b1 / 4 * 4 + (b1 % 4 * 16 + b2 / 16) / 16 = b1 := by omega
      have e2 : (b1 % 4 * 16 + b2 / 16) % 16 * 16 + b2 % 16 * 4 / 4 = b2 := by omega
      rw [e1, e2]
  | case4 b1 b2 b3 rest ih =>
      have hb1 : b1 < 256 := h b1 (by simp)
      have hb2 : b2 < 256 := h b2 (by simp)
      have hb3 : b3 < 256 := h b3 (by simp)
      rw [b64Encode, b64Decode]
      rw [if_neg (by
        intro hcon
        exact b64Char_ne_pad _ (by omega) hcon.2.2)]
      rw [if_neg (by
        intro hcon
        exact b64Char_ne_pad _ (by omega) hcon.2)]
      rw [b64CharVal_b64Char _ (by omega), b64CharVal_b64Char _ (by omega),
        b64CharVal_b64Char _ (by omega), b64CharVal_b64Char _ (by omega)]
      rw [ih (fun b hb => h b (by simp [hb]))]
      simp only [Option.some.injEq]
      have e1 : b1 / 4 * 4 + (b1 % 4 * 16 + b2 / 16) / 16 = b1 := by omega
      have e2 : (b1 % 4 * 16 + b2 / 16) % 16 * 16 + (b2 % 16 * 4 + b3 / 64) / 4 = b2 := by
        omega
      have e3 : (b2 % 16 * 4 + b3 / 64) % 4 * 64 + b3 % 64 = b3 := by omega
      rw [e1, e2, e3]

theorem str_mk_data (s : String) : String.mk s.data = s := by
  cases s
  rfl

/-- C3: for every list of path strings, decoding the payload embedded by
`generate_zip_script` — base64-decode, zlib-decompress, UTF-8-decode,
JSON-parse, exactly as the generated script's boilerplate does — yields a
list equal to the input, preserving order and duplicates.  The zlib pair
is any compressor and decompressor satisfying zlib's contract: decoding
inverts coding and compressed output stays bytes. -/
theorem archive_payload_roundtrip (compress decompress : List Nat → List Nat)
    (hinv : ∀ bs, decompress (compress bs) = bs)
    (hbytes : ∀ bs, (∀ b ∈ bs, b < 256) → ∀ b ∈ compress bs, b < 256)
    (files : List String) :
    decode_embedded_payload decompress (generate_zip_payload compress files) = some files := by
  rw [generate_zip_payload, decode_embedded_payload]
  rw [b64Decode_b64Encode _ (hbytes _ (utf8Encode_lt _))]
  simp only []
  rw [hinv, json_dumps_paths, utf8Decode_encode_ascii _ (jsonDumpList_ascii _)]
  simp only []
  rw [json_loads_paths, parseArray_jsonDumpList]
  simp [str_mk_data, List.map_map, Function.comp]
  have hmap : ∀ (l : List String), l.map (String.mk ∘ String.data) = l := by
    intro l
    induction l with
    | nil => rfl
    | cons s ss ih => simp only [List.map_cons, Function.comp, str_mk_data, ih]
  exact hmap files

theorem archive_payload_roundtrip_witness :
    decode_embedded_payload (fun bs => bs)
        (generate_zip_payload (fun bs => bs) ["a/b.txt", "c.txt", "a/b.txt"]) =
      some ["a/b.txt", "c.txt", "a/b.txt"] :=
  archive_payload_roundtrip (fun bs => bs) (fun bs => bs) (fun _ => rfl)
    (fun _ h => h) ["a/b.txt", "c.txt", "a/b.txt"]

/-- C1: codec round trip — encoding a manifest as the structured document
built by `dump_directory_to_json` and decoding with `load_json_filelist`
returns a files mapping equal to the manifest. -/
theorem manifest_codec_roundtrip (src : String) (m : List (String × Nat)) :
    (load_json_filelist (output_data src m)).1 = manifestToJson m ∧
    jsonFilesToManifest (load_json_filelist (output_data src m)).1 = some m := by
  rw [output_data, load_persisted_doc]
  exact ⟨rfl, jsonFilesToManifest_manifestToJson m⟩

/-- C2: partition law — `only_in_a`, `only_in_b` and `in_both` are
pairwise disjoint and their union is the union of the two key sets. -/
theorem diff_partition (a b : List (String × Nat)) :
    (Disjoint (only_in_a a b) (only_in_b a b) ∧
     Disjoint (only_in_a a b) (in_both a b) ∧
     Disjoint (only_in_b a b) (in_both a b)) ∧
    only_in_a a b ∪ only_in_b a b ∪ in_both a b = keySet a ∪ keySet b := by
  constructor
  · refine ⟨?_, ?_, ?_⟩ <;>
      · rw [Finset.disjoint_left]
        intro x hx hx2
        simp only [only_in_a, only_in_b, in_both, Finset.mem_sdiff, Finset.mem_inter]
          at hx hx2
        tauto
  · ext x
    simp only [only_in_a, only_in_b, in_both, Finset.mem_union, Finset.mem_sdiff,
      Finset.mem_inter]
    tauto

/-- C8: diff symmetry — `only_in_a` of (A, B) is `only_in_b` of (B, A)
and vice versa. -/
theorem diff_symmetry (a b : List (String × Nat)) :
    only_in_a a b = only_in_b b a ∧ only_in_b a b = only_in_a b a :=
  ⟨rfl, rfl⟩

/-- C7: decode failure semantics — a parse failure of `json.load`
propagates as a `DecodeError` carrying the parse error, and a files value
is only ever produced from a successfully parsed document. -/
theorem decode_failure_semantics (e : String) (j : Json) :
    load_json_filelist_checked (Except.error e) =
      Except.error (DecodeError.parseFailure e) ∧
    load_json_filelist_checked (Except.ok j) = Except.ok (load_json_filelist j) :=
  ⟨rfl, rfl⟩

/-- C9: untrusted-metadata noninterference — two persisted documents with
the same files mapping but different `total_files` and `total_size`
fields report identical statistics after load, recomputed as the length
of the files mapping and the sum of its values. -/
theorem metadata_noninterference (src1 src2 : String) (tf1 ts1 tf2 ts2 : Int)
    (m : List (String × Nat)) :
    reported_stats (persisted_doc src1 tf1 ts1 m) =
      reported_stats (persisted_doc src2 tf2 ts2 m) ∧
    reported_stats (persisted_doc src1 tf1 ts1 m) =
      some (m.length, (m.map Prod.snd).sum) := by
  have h1 : ∀ (src : String) (tf ts : Int),
      reported_stats (persisted_doc src tf ts m) =
        some (m.length, (m.map Prod.snd).sum) := by
    intro src tf ts
    rw [reported_stats, load_persisted_doc]
    simp only []
    rw [jsonFilesToManifest_manifestToJson]
  exact ⟨(h1 src1 tf1 ts1).trans (h1 src2 tf2 ts2).symm, h1 src1 tf1 ts1⟩

/-- C4 (amended): legacy decode — a bare mapping whose keys avoid the
reserved key `"files"` decodes to itself with empty metadata, and the
wrapped shape is taken exactly when the reserved key is present. -/
theorem legacy_decode_detection (fields : List (String × Json)) :
    (hasKey fields "files" = false →
      load_json_filelist (Json.obj fields) = (Json.obj fields, [])) ∧
    (hasKey fields "files" = true →
      load_json_filelist (Json.obj fields) =
        (dictGet fields "files", fields.filter (fun kv => kv.1 ≠ "files"))) := by
  constructor
  · intro h
    rw [load_json_filelist]
    simp [h]
  · intro h
    rw [load_json_filelist]
    simp [h]

theorem legacy_decode_detection_witness :
    load_json_filelist (Json.obj [("a.txt", Json.num 3)]) =
      (Json.obj [("a.txt", Json.num 3)], []) ∧
    load_json_filelist (Json.obj [("files", Json.num 7), ("total_files", Json.num 1)]) =
      (dictGet [("files", Json.num 7), ("total_files", Json.num 1)] "files",
        List.filter (fun kv => kv.1 ≠ "files")
          [("files", Json.num 7), ("total_files", Json.num 1)]) :=
  ⟨(legacy_decode_detection [("a.txt", Json.num 3)]).1 (by decide),
   (legacy_decode_detection [("files", Json.num 7), ("total_files", Json.num 1)]).2 (by decide)⟩

/-- C4 (counterexample): the bare path-to-size mapping whose single path
is literally named `files` does not decode to itself — the decoder takes
the wrapped branch and returns its integer value as the files value. -/
theorem legacy_decode_counterexample :
    load_json_filelist (Json.obj [("files", Json.num 3)]) = (Json.num 3, []) ∧
    ¬ load_json_filelist (Json.obj [("files", Json.num 3)]) =
        (Json.obj [("files", Json.num 3)], []) := by
  constructor
  · rfl
  · intro h
    rw [load_json_filelist] at h
    simp [hasKey, dictGet] at h

/-- C5: diff size aggregation — every shared path appears in
`files_in_both` with A's size and B's size retained separately, and on
A = x:10, y:20 and B = y:25, z:5 the comparison yields only-in-A x with
10 bytes, only-in-B z with 5 bytes, and shared y with sizes 20 and 25. -/
theorem diff_size_aggregation :
    (∀ (a b : List (String × Nat)) (f : String), f ∈ in_both a b →
      (f, lookupSize a f, lookupSize b f) ∈ files_in_both a b) ∧
    only_in_a [("x", 10), ("y", 20)] [("y", 25), ("z", 5)] = {"x"} ∧
    size_only_a [("x", 10), ("y", 20)] [("y", 25), ("z", 5)] = 10 ∧
    only_in_b [("x", 10), ("y", 20)] [("y", 25), ("z", 5)] = {"z"} ∧
    size_only_b [("x", 10), ("y", 20)] [("y", 25), ("z", 5)] = 5 ∧
    in_both [("x", 10), ("y", 20)] [("y", 25), ("z", 5)] = {"y"} ∧
    files_in_both [("x", 10), ("y", 20)] [("y", 25), ("z", 5)] = [("y", 20, 25)] := by
  refine ⟨?_, ?_, ?_, ?_, ?_, ?_, ?_⟩
  · intro a b f hf
    rw [files_in_both]
    exact List.mem_map.mpr ⟨f, (Finset.mem_sort _).mpr hf, rfl⟩
  · decide
  · decide
  · decide
  · decide
  · decide
  · rw [files_in_both]
    have h1 : in_both [("x", 10), ("y", 20)] [("y", 25), ("z", 5)] = {"y"} := by decide
    rw [h1, Finset.sort_singleton]
    rfl

theorem diff_size_aggregation_witness :
    ("y", lookupSize [("x", 10), ("y", 20)] "y", lookupSize [("y", 25), ("z", 5)] "y") ∈
      files_in_both [("x", 10), ("y", 20)] [("y", 25), ("z", 5)] :=
  diff_size_aggregation.1 [("x", 10), ("y", 20)] [("y", 25), ("z", 5)] "y" (by decide)

theorem foldl_scan_step_filter (entries : List (String × Except String Nat)) :
    ∀ acc, entries.foldl scan_step acc =
      (entries.filter (fun e => statOk e.2)).foldl scan_step acc := by
  induction entries with
  | nil => intro acc; rfl
  | cons e es ih =>
      intro acc
      rw [List.foldl_cons, List.filter_cons]
      cases he : e.2 with
      | ok v =>
          simp only [statOk, if_true, List.foldl_cons]
          exact ih _
      | error msg =>
          have hstep : scan_step acc e = acc := by rw [scan_step, he]
          simp only [statOk, Bool.false_eq_true, if_false, hstep]
          exact ih acc

/-- C6 (amended): partial-scan error handling — a scan with per-file
access failures still returns the manifest of exactly the accessible
files (the failing ones are omitted), and one warning line is printed per
failing file; the warnings are not part of the return value. -/
theorem scan_partial_failures (entries : List (String × Except String Nat)) :
    scan_directory entries = scan_directory (entries.filter (fun e => statOk e.2)) ∧
    (scan_warnings entries).length =
      (entries.filter (fun e => !statOk e.2)).length := by
  constructor
  · rw [scan_directory, scan_directory]
    exact foldl_scan_step_filter entries []
  · rw [scan_warnings]
    induction entries with
    | nil => rfl
    | cons e es ih =>
        rw [List.filterMap_cons, List.filter_cons]
        cases he : e.2 with
        | ok v =>
            simp only [statOk, Bool.not_true, Bool.false_eq_true, if_false]
            exact ih
        | error msg =>
            simp only [statOk, Bool.not_false, if_true, List.length_cons]
            rw [ih]
            rfl

/-- C6 (counterexample): the scan's return value carries no diagnostics —
scanning a tree with one inaccessible file returns the very same value as
scanning the tree without it, so the skipped file cannot be recovered
from the successful result. -/
theorem scan_diagnostics_not_attached :
    scan_directory [("a.txt", Except.error "Permission denied"), ("b.txt", Except.ok 5)] =
      scan_directory [("b.txt", Except.ok 5)] ∧
    scan_directory [("a.txt", Except.error "Permission denied"), ("b.txt", Except.ok 5)] =
      [("b.txt", 5)] := by
  constructor
  · rfl
  · rfl

/-- C10: backslash normalization collision — the scan replaces every
backslash in a relative path with a slash, so a file literally named
`a\b` and the nested file `a/b` share one manifest key: scanning both
records only the later size, and the manifest has fewer entries than
there are files. -/
theorem backslash_collision :
    normalize_rel_path "a\\b" = normalize_rel_path "a/b" ∧
    scan_directory [("a\\b", Except.ok 3), ("a/b", Except.ok 7)] = [("a/b", 7)] ∧
    ([("a\\b", Except.ok 3), ("a/b", Except.ok 7)] :
      List (String × Except String Nat)).length = 2 ∧
    (scan_directory [("a\\b", Except.ok 3), ("a/b", Except.ok 7)]).length = 1 := by
  refine ⟨rfl, rfl, rfl, rfl⟩
